import Mathlib

/-!
Verification of the core of ww-wanderers-blogutils: the object-store access
layer (src/s3.ts: retry executor, paginated listing) and the local image
cache (src/images.ts: filename parsing, read-through/write-through cache,
recursive age-based eviction sweep).

The TypeScript is shallowly embedded: asynchronous operations become pure
functions (an operation that may fail per call becomes a function from the
attempt index to an `Except` result), the S3 client becomes an explicit
`send` function from requests to responses, the filesystem becomes an
explicit directory-tree value threaded through each operation, and the
`setTimeout` backoff suspensions are recorded as a list of delay amounts.
-/

/-- Model of the duck-typed error values inspected by `S3Error.isAuthError`
and `S3Error.isRetryable` in src/s3.ts: only the `code` field and the
`$metadata.httpStatusCode` field are ever read, each of which may be absent
(`undefined` in JS, `none` here). -/
structure AnyError where
  code : Option String
  httpStatusCode : Option Nat
deriving DecidableEq, Repr

/-- `S3Error.isAuthError` (src/s3.ts lines 19-26): code is
"Forbidden"/"Unauthorized" or the HTTP status is 403/401. -/
def isAuthError (e : AnyError) : Bool :=
  e.code == some "Forbidden" ||
  e.code == some "Unauthorized" ||
  e.httpStatusCode == some 403 ||
  e.httpStatusCode == some 401

/-- `S3Error.isRetryable` (src/s3.ts lines 28-35): code "TooManyRequests",
HTTP status 429, or a 5xx HTTP status.  In JS a comparison against an
absent (`undefined`) status is false, hence the `match`. -/
def isRetryable (e : AnyError) : Bool :=
  e.code == some "TooManyRequests" ||
  e.httpStatusCode == some 429 ||
  (match e.httpStatusCode with
   | some s => decide (500 ≤ s) && decide (s < 600)
   | none => false)

/-- Outcome of `withRetry` (src/s3.ts lines 208-231): the returned value or
thrown error, the number of times `operation` was invoked, and the list of
backoff delays that were slept between attempts. -/
structure RetryResult (α : Type) where
  result : Except AnyError α
  attempts : Nat
  delays : List Nat
deriving Repr

/-- The retry loop of `withRetry`, recursing on `remaining`, the number of
loop iterations still allowed after the current one (`remaining =
maxRetries - attempt`; the source's `attempt === maxRetries` break test is
exactly `remaining = 0`).  When the current attempt fails and the loop goes
on, the source sleeps `baseDelay * 2 ^ attempt` and retries. -/
def retryGo (operation : Nat → Except AnyError α) (baseDelay : Nat) :
    (attempt : Nat) → (remaining : Nat) → RetryResult α
  | attempt, 0 =>
    match operation attempt with
    | .ok v => ⟨.ok v, attempt + 1, []⟩
    | .error e => ⟨.error e, attempt + 1, []⟩
  | attempt, remaining + 1 =>
    match operation attempt with
    | .ok v => ⟨.ok v, attempt + 1, []⟩
    | .error e =>
      if isRetryable e then
        let rest := retryGo operation baseDelay (attempt + 1) remaining
        ⟨rest.result, rest.attempts, baseDelay * 2 ^ attempt :: rest.delays⟩
      else
        ⟨.error e, attempt + 1, []⟩

/-- `withRetry(operation, maxRetries = 3, baseDelay = 1000)` from src/s3.ts:
a `for` loop over `attempt = 0 .. maxRetries` that returns the first
success, and otherwise stops (and throws the last error unchanged) as soon
as `attempt === maxRetries` or the error is not retry-classified. -/
def withRetry (operation : Nat → Except AnyError α) (maxRetries : Nat := 3)
    (baseDelay : Nat := 1000) : RetryResult α :=
  retryGo operation baseDelay 0 maxRetries

/-- The slice of the extension configuration (src/config.ts) that the
listing functions read through `getCachedConfig()`: the images bucket and
the images key prefix. -/
structure Config where
  imagesBucket : String
  imagesPrefix : String
deriving DecidableEq, Repr

/-- The fields of a `ListObjectsV2Command` as constructed by `listKeys` and
`listDirectories` in src/s3.ts.  The opaque continuation token is modelled
as a `Nat` (a resumption position inside the store). -/
structure ListObjectsV2Request where
  bucket : String
  delimiter : String
  reqPrefix : String
  maxKeys : Nat
  continuationToken : Option Nat
deriving DecidableEq, Repr

/-- The fields of a `ListObjectsV2CommandOutput` that the source reads:
`Contents` (each entry's `Key`, possibly absent), `CommonPrefixes` (each
entry's `Prefix`, possibly absent) and `NextContinuationToken`. -/
structure ListObjectsV2Response where
  contents : Option (List (Option String))
  commonPrefixes : Option (List (Option String))
  nextContinuationToken : Option Nat
deriving DecidableEq, Repr

/-- The JS truthiness filter `if (obj.Key) { keys.push(obj.Key) }` (and the
identical one for `obj.Prefix`): an absent or empty string is skipped. -/
def truthyString : Option String → Option String
  | some s => if s.isEmpty then none else some s
  | none => none

/-- The `do`/`while` pagination loop of `listKeys` (src/s3.ts lines
147-168), with the S3 client abstracted as a pure `send` function and the
network made explicit: `fuel` bounds the number of iterations (the source
loop's termination is the store's responsibility), `tok` is the current
continuation token, `acc` the keys collected so far, and `reqs` the log of
requests issued.  Each iteration requests
`MaxKeys = min (maxKeys - acc.length) 1000` with `Bucket =
config.imagesBucket`, `Delimiter = "/"` and `Prefix = ` the caller's
prefix, then appends the truthy `Contents` keys and continues while a
`NextContinuationToken` is present and fewer than `maxKeys` keys are
collected. -/
def listKeysGo (send : ListObjectsV2Request → ListObjectsV2Response)
    (config : Config) (p : String) (maxKeys : Nat) :
    Nat → Option Nat → List String → List ListObjectsV2Request →
    List String × List ListObjectsV2Request
  | 0, _, acc, reqs => (acc, reqs)
  | fuel + 1, tok, acc, reqs =>
    let remainingKeys := maxKeys - acc.length
    let req : ListObjectsV2Request :=
      ⟨config.imagesBucket, "/", p, min remainingKeys 1000, tok⟩
    let response := send req
    let acc2 := match response.contents with
      | none => acc
      | some objs => acc ++ objs.filterMap truthyString
    match response.nextContinuationToken with
    | some t =>
      if acc2.length < maxKeys then
        listKeysGo send config p maxKeys fuel (some t) acc2 (reqs ++ [req])
      else (acc2, reqs ++ [req])
    | none => (acc2, reqs ++ [req])

/-- `listKeys(bucket, prefix, maxKeys)` from src/s3.ts lines 141-171.  Note
that the `bucket` argument is never placed in a request: the loop reads the
cached configuration's `imagesBucket` instead. -/
def listKeys (send : ListObjectsV2Request → ListObjectsV2Response)
    (config : Config) (bucket p : String) (maxKeys fuel : Nat) :
    List String × List ListObjectsV2Request :=
  listKeysGo send config p maxKeys fuel none [] []

/-- The pagination loop of `listDirectories` (src/s3.ts lines 180-201):
same shape as `listKeysGo`, but the per-request `Prefix` is
`config.imagesPrefix` (not an argument), the collected entries come from
`CommonPrefixes`, and the cap is the internal `maxDirs = 10000`. -/
def listDirectoriesGo (send : ListObjectsV2Request → ListObjectsV2Response)
    (config : Config) :
    Nat → Option Nat → List String → List ListObjectsV2Request →
    List String × List ListObjectsV2Request
  | 0, _, dirs, reqs => (dirs, reqs)
  | fuel + 1, tok, dirs, reqs =>
    let remainingKeys := 10000 - dirs.length
    let req : ListObjectsV2Request :=
      ⟨config.imagesBucket, "/", config.imagesPrefix, min remainingKeys 1000, tok⟩
    let response := send req
    let dirs2 := match response.commonPrefixes with
      | none => dirs
      | some objs => dirs ++ objs.filterMap truthyString
    match response.nextContinuationToken with
    | some t =>
      if dirs2.length < 10000 then
        listDirectoriesGo send config fuel (some t) dirs2 (reqs ++ [req])
      else (dirs2, reqs ++ [req])
    | none => (dirs2, reqs ++ [req])

/-- `listDirectories(bucket, prefix)` from src/s3.ts lines 173-204.  Both
the `bucket` and the `p` (source: `prefix`) arguments are dead: every
request uses `config.imagesBucket` and `config.imagesPrefix`. -/
def listDirectories (send : ListObjectsV2Request → ListObjectsV2Response)
    (config : Config) (bucket p : String) (fuel : Nat) :
    List String × List ListObjectsV2Request :=
  listDirectoriesGo send config fuel none [] []

/-- An ideal S3-conformant store holding the ordered list `objs` of keys
that match the request (prefix/delimiter filtering is abstracted into the
choice of `objs`): a request resumes at the token's position, returns the
next `MaxKeys` keys under `Contents`, and returns a `NextContinuationToken`
exactly when keys remain beyond the returned page. -/
def idealStore (objs : List String) : ListObjectsV2Request → ListObjectsV2Response :=
  fun r =>
    let pos := r.continuationToken.getD 0
    let page := (objs.drop pos).take r.maxKeys
    ⟨some (page.map some), none,
     if pos + page.length < objs.length then some (pos + page.length) else none⟩

/-- An ideal store for directory listing: like `idealStore`, but the pages
are served under `CommonPrefixes`. -/
def idealDirStore (dirs : List String) : ListObjectsV2Request → ListObjectsV2Response :=
  fun r =>
    let pos := r.continuationToken.getD 0
    let page := (dirs.drop pos).take r.maxKeys
    ⟨none, some (page.map some),
     if pos + page.length < dirs.length then some (pos + page.length) else none⟩

/-- A node of the local cache directory tree, as read through
`workspace.fs` by src/images.ts: a regular file carries the modification
time consulted by the sweep and its byte content; a directory carries its
named children in listing order; `other` stands for any remaining
`FileType` (symbolic link / unknown), which the sweep refuses to delete. -/
inductive FsEntry where
  | file (mtime : Nat) (data : List Nat)
  | dir (entries : List (String × FsEntry))
  | other
deriving Repr

/-- `_cleanCache(dir)` from src/images.ts lines 230-257, acting on the
listed entries of one directory.  `t` is the precomputed `expireTime =
Date.now() - 30 days`; a file is stale iff `mtime < expireTime`.  For each
entry, in order: a stale file is deleted; a fresh file is kept and clears
`deletedAll`; a subdirectory is swept recursively first (post-order) and
then deleted iff the recursive sweep reports it fully emptied, otherwise
kept (with its swept contents) clearing `deletedAll`; any other entry type
is kept and clears `deletedAll`.  Returns the surviving entries together
with the `deletedAll` flag the source returns. -/
def _cleanCache (t : Nat) : List (String × FsEntry) → List (String × FsEntry) × Bool
  | [] => ([], true)
  | (n, FsEntry.file m d) :: rest =>
    let restR := _cleanCache t rest
    if m < t then restR else ((n, FsEntry.file m d) :: restR.1, false)
  | (n, FsEntry.dir sub) :: rest =>
    let subR := _cleanCache t sub
    let restR := _cleanCache t rest
    if subR.2 then restR else ((n, FsEntry.dir subR.1) :: restR.1, false)
  | (n, FsEntry.other) :: rest =>
    let restR := _cleanCache t rest
    ((n, FsEntry.other) :: restR.1, false)

/-- Every regular file in the tree is stale (`mtime < t`) and the tree
consists of files and directories only (the claims about full sweeps speak
of trees of files; the sweep never deletes an `other` entry). -/
def allStale (t : Nat) : List (String × FsEntry) → Bool
  | [] => true
  | (_, FsEntry.file m _) :: rest => decide (m < t) && allStale t rest
  | (_, FsEntry.dir sub) :: rest => allStale t sub && allStale t rest
  | (_, FsEntry.other) :: _ => false

/-- `FreshPath t es p`: following the names in `p` from the directory
listing `es` leads through directories to a regular file whose
modification time is at least `t` (a fresh file, in the sweep's terms). -/
inductive FreshPath (t : Nat) : List (String × FsEntry) → List String → Prop where
  | here {es : List (String × FsEntry)} {n : String} {m : Nat} {d : List Nat} :
      (n, FsEntry.file m d) ∈ es → t ≤ m → FreshPath t es [n]
  | there {es : List (String × FsEntry)} {n : String} {sub : List (String × FsEntry)}
      {p : List String} :
      (n, FsEntry.dir sub) ∈ es → FreshPath t sub p → FreshPath t es (n :: p)

/-- Name lookup in one directory listing (the filesystem's resolution of
one path segment). -/
def lookupEntry : List (String × FsEntry) → String → Option FsEntry
  | [], _ => none
  | e :: rest, n => if e.1 == n then some e.2 else lookupEntry rest n

/-- Create or replace the entry named `n` (the filesystem's effect of a
write at one path segment). -/
def setEntry : List (String × FsEntry) → String → FsEntry → List (String × FsEntry)
  | [], n, v => [(n, v)]
  | e :: rest, n, v => if e.1 == n then (n, v) :: rest else e :: setEntry rest n v

/-- Resolution of the two-segment cache path `cacheRoot/folder/fname` used
by `getCachedImage` and `writeCacheImage`. -/
def lookup2 (root : List (String × FsEntry)) (folder fname : String) : Option FsEntry :=
  match lookupEntry root folder with
  | some (FsEntry.dir sub) => lookupEntry sub fname
  | _ => none

/-- The `ImageInfo` interface of src/images.ts: the literal object-store
basename and the canonical base name. -/
structure ImageInfo where
  filename : String
  name : String
deriving DecidableEq, Repr

/-- `writeCacheImage(folder, image, content, skipClean = false)` from
src/images.ts lines 214-227, acting on the cache-root tree: create the
folder directory if needed (`workspace.fs.createDirectory`), write
`${image.name}.webp` in it with modification time `now`
(`workspace.fs.writeFile`), and, unless `skipClean` was passed, run
`_cleanCache(CACHE_DIR)` over the whole cache root.  The two `error`
branches stand for the filesystem errors raised when a non-directory sits
at the folder path or a directory sits at the file path. -/
def writeCacheImage (now t : Nat) (folder : String) (image : ImageInfo)
    (content : List Nat) (skipClean : Bool) (root : List (String × FsEntry)) :
    Except String (List (String × FsEntry)) :=
  let fname := image.name ++ ".webp"
  match lookupEntry root folder with
  | some (FsEntry.dir sub) =>
    match lookupEntry sub fname with
    | some (FsEntry.dir _) => Except.error "writeFile: directory in the way"
    | _ =>
      let root2 := setEntry root folder
        (FsEntry.dir (setEntry sub fname (FsEntry.file now content)))
      Except.ok (if skipClean then root2 else (_cleanCache t root2).1)
  | none =>
    let root2 := setEntry root folder
      (FsEntry.dir (setEntry [] fname (FsEntry.file now content)))
    Except.ok (if skipClean then root2 else (_cleanCache t root2).1)
  | some _ => Except.error "createDirectory: non-directory in the way"

/-- `getCachedImage(folder, image)` from src/images.ts lines 181-211:
stat the deterministic path `cacheRoot/folder/${image.name}.webp`; if
present, return that path untouched; on a miss, fetch the image's public
URL (`fetchImage` abstracts `fetch(getImageUrl(folder, image))`, returning
the HTTP status and body bytes), fail when the status is an HTTP error
(≥ 400), and otherwise write the bytes through `writeCacheImage` with
`skipClean = true` — the read-through path never sweeps. -/
def getCachedImage (now t : Nat) (fetchImage : String → ImageInfo → Nat × List Nat)
    (folder : String) (image : ImageInfo) (root : List (String × FsEntry)) :
    Except String ((String × String) × List (String × FsEntry)) :=
  let fname := image.name ++ ".webp"
  match lookup2 root folder fname with
  | some _ => Except.ok ((folder, fname), root)
  | none =>
    let response := fetchImage folder image
    if 400 ≤ response.1 then Except.error "Image not found"
    else
      match writeCacheImage now t folder image response.2 true root with
      | Except.ok root2 => Except.ok ((folder, fname), root2)
      | Except.error e => Except.error e

/-- `imageFilename.substring(imageFilename.lastIndexOf("/") + 1)`: the
characters after the last `'/'` (the whole string when there is none). -/
def basenameChars (s : List Char) : List Char :=
  (s.reverse.takeWhile (fun c => c != '/')).reverse

/-- The trailing-extension part `\.[^.]+` of `IMAGE_FILENAME_PATTERN`
(src/images.ts line 8), anchored at both ends of its input: a dot followed
by one or more non-dot characters. -/
def extMatch : List Char → Bool
  | '.' :: r => !r.isEmpty && r.all (fun c => c != '.')
  | _ => false

/-- The optional size-tag part `\.\d+x\d+` of `IMAGE_FILENAME_PATTERN`,
anchored at both ends of its input: a dot, one or more digits, an `x`, one
or more digits.  The first digit run must be maximal because a digit can
never match the literal `x`, so `takeWhile` loses no matches. -/
def sizeTagMatch : List Char → Bool
  | '.' :: r =>
    let d1 := r.takeWhile Char.isDigit
    let rest := r.dropWhile Char.isDigit
    !d1.isEmpty &&
      (match rest with
       | 'x' :: d2 => !d2.isEmpty && d2.all Char.isDigit
       | _ => false)
  | _ => false

/-- Whether `(?:\.\d+x\d+)?\.[^.]+$` matches the whole of `tl`: either the
extension alone, or a size tag followed by the extension at some split
point.  Quantifying over every split point covers all the backtracking
paths of the JS regex engine; the capture groups do not include this part,
so only matchability matters. -/
def tailMatch (tl : List Char) : Bool :=
  extMatch tl ||
  (List.range (tl.length + 1)).any
    (fun j => sizeTagMatch (tl.take j) && extMatch (tl.drop j))

/-- `parseImageInfo(imageFilename)` from src/images.ts lines 29-35:
`IMAGE_FILENAME_PATTERN.exec` on the basename.  The pattern is anchored at
both ends, so `m[0]` is the whole basename, and the lazy group `(.*?)`
makes `m[1]` the shortest prefix whose remainder matches the tail pattern —
found here by scanning candidate split points left to right. -/
def parseImageInfo (imageFilename : String) : Option ImageInfo :=
  let b := basenameChars imageFilename.data
  match (List.range (b.length + 1)).find? (fun i => tailMatch (b.drop i)) with
  | some i => some ⟨String.mk b, String.mk (b.take i)⟩
  | none => none

/-- The per-item outcome of `uploadImages` (src/images.ts lines 143-153):
`ImageUploadSuccessResult` or `ImageUploadErrorResult`, both carrying the
input URI. -/
inductive ImageUploadResult where
  | success (imageUri : String) (image : ImageInfo)
  | error (imageUri : String) (message : String)
deriving DecidableEq, Repr

/-- `uploadImages(folder, imageUris, config)` from src/images.ts lines
155-171: a sequential `for` loop over the URIs in order; each iteration
runs the (here abstracted) `uploadImage` and pushes a success outcome, or
catches the failure and pushes an error outcome, never aborting the
loop. -/
def uploadImages (uploadImage : String → Except String ImageInfo) :
    List String → List ImageUploadResult
  | [] => []
  | uri :: rest =>
    (match uploadImage uri with
     | Except.ok img => ImageUploadResult.success uri img
     | Except.error e => ImageUploadResult.error uri e) :: uploadImages uploadImage rest

/-! ## Theorems -/

theorem retryGo_always_error (α : Type) (errs : Nat → AnyError) (baseDelay : Nat) :
    ∀ remaining attempt, (∀ i, i < attempt + remaining → isRetryable (errs i) = true) →
    retryGo (fun i => (Except.error (errs i) : Except AnyError α)) baseDelay attempt remaining =
      ⟨Except.error (errs (attempt + remaining)), attempt + remaining + 1,
       (List.range remaining).map (fun k => baseDelay * 2 ^ (attempt + k))⟩ := by
  intro remaining
  induction remaining with
  | zero => intro attempt _; simp [retryGo]
  | succ r ih =>
    intro attempt h
    have hret : isRetryable (errs attempt) = true := h attempt (by omega)
    have hrec := ih (attempt + 1) (by intro i hi; exact h i (by omega))
    have e1 : attempt + 1 + r = attempt + (r + 1) := by omega
    simp only [retryGo, hret, if_true, hrec, RetryResult.mk.injEq]
    refine ⟨by rw [e1], by omega, ?_⟩
    rw [List.range_succ_eq_map, List.map_cons, List.map_map]
    simp only [List.cons.injEq]
    refine ⟨by norm_num, ?_⟩
    apply List.map_congr_left
    intro k _
    have e2 : attempt + 1 + k = attempt + (k + 1) := by omega
    simp [Function.comp, e2]

/-- C1: for every `maxRetries = n` and every operation that fails on every
attempt with an error classified Retryable, `withRetry(operation, n,
baseDelay)` attempts the operation exactly `n + 1` times and then throws
the very error produced by the last attempt, unchanged (the thrown value is
the last attempt's error value, code and status metadata included); the
recorded backoff delays are `baseDelay * 2 ^ k` for `k = 0 .. n - 1`. -/
theorem withRetry_retryable_exhausts (α : Type) (errs : Nat → AnyError)
    (maxRetries baseDelay : Nat)
    (h : ∀ i, i ≤ maxRetries → isRetryable (errs i) = true) :
    withRetry (fun i => (Except.error (errs i) : Except AnyError α)) maxRetries baseDelay =
      ⟨Except.error (errs maxRetries), maxRetries + 1,
       (List.range maxRetries).map (fun k => baseDelay * 2 ^ k)⟩ := by
  have hg := retryGo_always_error α errs baseDelay maxRetries 0
    (by intro i hi; exact h i (by omega))
  simpa [withRetry] using hg

/-- Witness for C1 at a concrete input: an operation that always fails with
a `TooManyRequests` error, `maxRetries = 2`: three attempts are made, the
final error is that error, and the two backoff sleeps are 1000 and 2000. -/
theorem withRetry_retryable_exhausts_witness :
    (∀ i, i ≤ 2 → isRetryable ⟨some "TooManyRequests", none⟩ = true) ∧
    withRetry (fun _ => (Except.error ⟨some "TooManyRequests", none⟩ : Except AnyError Unit)) 2 1000 =
      ⟨Except.error ⟨some "TooManyRequests", none⟩, 3, [1000, 2000]⟩ := by
  refine ⟨fun i _ => by decide, ?_⟩
  have h := withRetry_retryable_exhausts Unit (fun _ => ⟨some "TooManyRequests", none⟩) 2 1000
    (fun i _ => show isRetryable ⟨some "TooManyRequests", none⟩ = true by decide)
  rw [h]
  rfl

/-- C6 counterexample: the claim says every operation whose failure is
classified as an Auth error (code Forbidden/Unauthorized or HTTP status
401/403) gets exactly 1 attempt from `withRetry`.  But `withRetry` only
consults `S3Error.isRetryable`, never `S3Error.isAuthError`: an error with
code "Forbidden" and HTTP status 429 is auth-classified yet retryable, so
with `maxRetries = 3` it is attempted 4 times, not once. -/
theorem withRetry_auth_counterexample :
    isAuthError ⟨some "Forbidden", some 429⟩ = true ∧
    (withRetry (fun _ => (Except.error ⟨some "Forbidden", some 429⟩ : Except AnyError Unit)) 3 1000).attempts = 4 := by
  exact ⟨by decide, rfl⟩

/-- C6 (amended): for every operation whose failure is classified as an
Auth error AND is not simultaneously classified Retryable (as every real
401/403 auth failure is not), `withRetry` makes exactly 1 attempt and
propagates the error without any retry or delay. -/
theorem withRetry_auth_single_attempt (α : Type) (op : Nat → Except AnyError α)
    (e : AnyError) (maxRetries baseDelay : Nat)
    (_hauth : isAuthError e = true) (hnr : isRetryable e = false)
    (hop : op 0 = Except.error e) :
    withRetry op maxRetries baseDelay = ⟨Except.error e, 1, []⟩ := by
  cases maxRetries with
  | zero => simp [withRetry, retryGo, hop]
  | succ n => simp [withRetry, retryGo, hop, hnr]

/-- Witness for the amended C6 at a concrete input: a 401 Unauthorized
failure is attempted exactly once even with `maxRetries = 3`. -/
theorem withRetry_auth_single_attempt_witness :
    isAuthError ⟨some "Unauthorized", some 401⟩ = true ∧
    isRetryable ⟨some "Unauthorized", some 401⟩ = false ∧
    withRetry (fun _ => (Except.error ⟨some "Unauthorized", some 401⟩ : Except AnyError Unit)) 3 1000 =
      ⟨Except.error ⟨some "Unauthorized", some 401⟩, 1, []⟩ :=
  ⟨by decide, by decide,
   withRetry_auth_single_attempt Unit
     (fun _ => Except.error ⟨some "Unauthorized", some 401⟩)
     ⟨some "Unauthorized", some 401⟩ 3 1000 (by decide) (by decide) rfl⟩

theorem filterMap_truthy_map_some (l : List String) (h : ∀ k ∈ l, k.isEmpty = false) :
    (l.map some).filterMap truthyString = l := by
  induction l with
  | nil => rfl
  | cons a t ih =>
    have ha : a.isEmpty = false := h a (List.mem_cons_self a t)
    simp [List.filterMap_cons, truthyString, ha,
      ih (fun k hk => h k (List.mem_cons_of_mem a hk))]

theorem listKeysGo_ideal (objs : List String) (config : Config) (p : String) (maxKeys : Nat)
    (hkeys : ∀ k ∈ objs, k.isEmpty = false) (hN : maxKeys < objs.length) :
    ∀ fuel tok acc reqs, tok.getD 0 = acc.length → acc.length ≤ maxKeys →
      maxKeys - acc.length < fuel →
      ((listKeysGo (idealStore objs) config p maxKeys fuel tok acc reqs).1).length = maxKeys := by
  intro fuel
  induction fuel with
  | zero => intro tok acc reqs _ _ hf; omega
  | succ f ih =>
    intro tok acc reqs htok hle hf
    simp only [listKeysGo, idealStore]
    rw [htok]
    have hptake : ∀ k ∈ (List.drop acc.length objs).take ((maxKeys - acc.length) ⊓ 1000),
        k.isEmpty = false := by
      intro k hk
      exact hkeys k (List.mem_of_mem_drop (List.mem_of_mem_take hk))
    rw [filterMap_truthy_map_some _ hptake]
    have hmle : (maxKeys - acc.length) ⊓ 1000 ≤ maxKeys - acc.length :=
      Nat.min_le_left _ _
    have hplen : ((List.drop acc.length objs).take ((maxKeys - acc.length) ⊓ 1000)).length
        = (maxKeys - acc.length) ⊓ 1000 := by
      rw [List.length_take, List.length_drop]
      omega
    have hcond : acc.length +
        ((List.drop acc.length objs).take ((maxKeys - acc.length) ⊓ 1000)).length
        < objs.length := by
      rw [hplen]; omega
    split
    case h_1 t ht =>
      rw [if_pos hcond] at ht
      have ht2 : t = acc.length + ((maxKeys - acc.length) ⊓ 1000) := by
        rw [hplen] at ht
        exact (Option.some.injEq _ _ ▸ ht).symm
      by_cases hlt : (acc ++ (List.drop acc.length objs).take ((maxKeys - acc.length) ⊓ 1000)).length < maxKeys
      · rw [if_pos hlt]
        apply ih (some t)
        · simp [ht2, List.length_append, hplen]
        · rw [List.length_append, hplen] at hlt ⊢
          omega
        · rw [List.length_append, hplen] at hlt ⊢
          omega
      · rw [if_neg hlt]
        rw [List.length_append, hplen] at hlt ⊢
        omega
    case h_2 ht =>
      rw [if_pos hcond] at ht
      exact absurd ht (by simp)

theorem listKeysGo_reqs (send : ListObjectsV2Request → ListObjectsV2Response)
    (config : Config) (p : String) (maxKeys : Nat) :
    ∀ fuel tok acc reqs,
      (∀ r ∈ reqs, r.bucket = config.imagesBucket ∧ r.delimiter = "/" ∧
        r.reqPrefix = p ∧ r.maxKeys ≤ 1000) →
      ∀ r ∈ (listKeysGo send config p maxKeys fuel tok acc reqs).2,
        r.bucket = config.imagesBucket ∧ r.delimiter = "/" ∧
        r.reqPrefix = p ∧ r.maxKeys ≤ 1000 := by
  intro fuel
  induction fuel with
  | zero => intro tok acc reqs h; simpa [listKeysGo] using h
  | succ f ih =>
    intro tok acc reqs h
    simp only [listKeysGo]
    have hreq : ∀ r ∈ reqs ++
        [(⟨config.imagesBucket, "/", p, min (maxKeys - acc.length) 1000, tok⟩ : ListObjectsV2Request)],
        r.bucket = config.imagesBucket ∧ r.delimiter = "/" ∧
        r.reqPrefix = p ∧ r.maxKeys ≤ 1000 := by
      intro r hr
      rcases List.mem_append.mp hr with h1 | h2
      · exact h r h1
      · rw [List.mem_singleton.mp h2]
        exact ⟨rfl, rfl, rfl, Nat.min_le_right _ _⟩
    split
    case h_1 t ht =>
      by_cases hlt : (match (send ⟨config.imagesBucket, "/", p, min (maxKeys - acc.length) 1000, tok⟩).contents with
          | none => acc
          | some objs => acc ++ objs.filterMap truthyString).length < maxKeys
      · rw [if_pos hlt]
        exact ih (some t) _ _ hreq
      · rw [if_neg hlt]
        exact hreq
    case h_2 ht =>
      exact hreq

theorem listDirectoriesGo_ideal (dirs : List String) (config : Config)
    (hkeys : ∀ k ∈ dirs, k.isEmpty = false) (hN : 10000 < dirs.length) :
    ∀ fuel tok acc reqs, tok.getD 0 = acc.length → acc.length ≤ 10000 →
      10000 - acc.length < fuel →
      ((listDirectoriesGo (idealDirStore dirs) config fuel tok acc reqs).1).length = 10000 := by
  intro fuel
  induction fuel with
  | zero => intro tok acc reqs _ _ hf; omega
  | succ f ih =>
    intro tok acc reqs htok hle hf
    simp only [listDirectoriesGo, idealDirStore]
    rw [htok]
    have hptake : ∀ k ∈ (List.drop acc.length dirs).take ((10000 - acc.length) ⊓ 1000),
        k.isEmpty = false := by
      intro k hk
      exact hkeys k (List.mem_of_mem_drop (List.mem_of_mem_take hk))
    rw [filterMap_truthy_map_some _ hptake]
    have hmle : (10000 - acc.length) ⊓ 1000 ≤ 10000 - acc.length :=
      Nat.min_le_left _ _
    have hplen : ((List.drop acc.length dirs).take ((10000 - acc.length) ⊓ 1000)).length
        = (10000 - acc.length) ⊓ 1000 := by
      rw [List.length_take, List.length_drop]
      omega
    have hcond : acc.length +
        ((List.drop acc.length dirs).take ((10000 - acc.length) ⊓ 1000)).length
        < dirs.length := by
      rw [hplen]; omega
    split
    case h_1 t ht =>
      rw [if_pos hcond] at ht
      have ht2 : t = acc.length + ((10000 - acc.length) ⊓ 1000) := by
        rw [hplen] at ht
        exact (Option.some.injEq _ _ ▸ ht).symm
      by_cases hlt : (acc ++ (List.drop acc.length dirs).take ((10000 - acc.length) ⊓ 1000)).length < 10000
      · rw [if_pos hlt]
        apply ih (some t)
        · simp [ht2, List.length_append, hplen]
        · rw [List.length_append, hplen] at hlt ⊢
          omega
        · rw [List.length_append, hplen] at hlt ⊢
          omega
      · rw [if_neg hlt]
        rw [List.length_append, hplen] at hlt ⊢
        omega
    case h_2 ht =>
      rw [if_pos hcond] at ht
      exact absurd ht (by simp)

theorem listDirectoriesGo_reqs (send : ListObjectsV2Request → ListObjectsV2Response)
    (config : Config) :
    ∀ fuel tok acc reqs,
      (∀ r ∈ reqs, r.bucket = config.imagesBucket ∧ r.delimiter = "/" ∧
        r.reqPrefix = config.imagesPrefix ∧ r.maxKeys ≤ 1000) →
      ∀ r ∈ (listDirectoriesGo send config fuel tok acc reqs).2,
        r.bucket = config.imagesBucket ∧ r.delimiter = "/" ∧
        r.reqPrefix = config.imagesPrefix ∧ r.maxKeys ≤ 1000 := by
  intro fuel
  induction fuel with
  | zero => intro tok acc reqs h; simpa [listDirectoriesGo] using h
  | succ f ih =>
    intro tok acc reqs h
    simp only [listDirectoriesGo]
    have hreq : ∀ r ∈ reqs ++
        [(⟨config.imagesBucket, "/", config.imagesPrefix, min (10000 - acc.length) 1000, tok⟩ : ListObjectsV2Request)],
        r.bucket = config.imagesBucket ∧ r.delimiter = "/" ∧
        r.reqPrefix = config.imagesPrefix ∧ r.maxKeys ≤ 1000 := by
      intro r hr
      rcases List.mem_append.mp hr with h1 | h2
      · exact h r h1
      · rw [List.mem_singleton.mp h2]
        exact ⟨rfl, rfl, rfl, Nat.min_le_right _ _⟩
    split
    case h_1 t ht =>
      by_cases hlt : (match (send ⟨config.imagesBucket, "/", config.imagesPrefix, min (10000 - acc.length) 1000, tok⟩).commonPrefixes with
          | none => acc
          | some objs => acc ++ objs.filterMap truthyString).length < 10000
      · rw [if_pos hlt]
        exact ih (some t) _ _ hreq
      · rw [if_neg hlt]
        exact hreq
    case h_2 ht =>
      exact hreq

/-- C2: against an (ideal, S3-conformant) store holding `objs` with more
than `maxKeys` matching objects (all with nonempty keys, as real S3 keys
are), `listKeys` returns exactly `maxKeys` keys — never fewer — and every
page request it issued went to `config.imagesBucket` with delimiter `"/"`,
the caller's prefix, and a `MaxKeys` of at most 1000 (each request's
`MaxKeys` is `min (maxKeys - collectedSoFar) 1000` by construction in
`listKeysGo`, and the loop runs until the store returns no continuation
token or `maxKeys` keys are collected).  `fuel > maxKeys` iterations always
suffice for the loop to terminate on its own condition. -/
theorem listKeys_count (config : Config) (bucket p : String)
    (objs : List String) (maxKeys fuel : Nat)
    (hkeys : ∀ k ∈ objs, k.isEmpty = false)
    (hN : maxKeys < objs.length) (hfuel : maxKeys < fuel) :
    ((listKeys (idealStore objs) config bucket p maxKeys fuel).1).length = maxKeys ∧
    ∀ r ∈ (listKeys (idealStore objs) config bucket p maxKeys fuel).2,
      r.bucket = config.imagesBucket ∧ r.delimiter = "/" ∧
      r.reqPrefix = p ∧ r.maxKeys ≤ 1000 := by
  constructor
  · exact listKeysGo_ideal objs config p maxKeys hkeys hN fuel none [] []
      (by simp) (by simp) (by omega)
  · exact listKeysGo_reqs (idealStore objs) config p maxKeys fuel none [] [] (by simp)

/-- Witness for C2 at a concrete input: a store with 3 keys, `maxKeys = 2`:
exactly 2 keys come back. -/
theorem listKeys_count_witness :
    (∀ k ∈ (["a", "b", "c"] : List String), k.isEmpty = false) ∧
    2 < (["a", "b", "c"] : List String).length ∧ 2 < 3 ∧
    (((listKeys (idealStore ["a", "b", "c"]) ⟨"bkt", "images/"⟩ "ignored" "images/t/" 2 3).1).length = 2 ∧
     ∀ r ∈ (listKeys (idealStore ["a", "b", "c"]) ⟨"bkt", "images/"⟩ "ignored" "images/t/" 2 3).2,
       r.bucket = "bkt" ∧ r.delimiter = "/" ∧ r.reqPrefix = "images/t/" ∧ r.maxKeys ≤ 1000) :=
  ⟨by decide, by decide, by decide,
   listKeys_count ⟨"bkt", "images/"⟩ "ignored" "images/t/" ["a", "b", "c"] 2 3
     (by decide) (by decide) (by decide)⟩

/-- C5: each `listDirectories` page request carries the cached
configuration's `imagesPrefix` rather than the prefix argument — so two
calls differing only in the prefix argument are identical, requests
included — and against an ideal store holding more than 10000 common
prefixes the collection loop stops once 10000 entries have been
collected. -/
theorem listDirectories_config_coupling (config : Config) (b p1 p2 : String)
    (send : ListObjectsV2Request → ListObjectsV2Response) (fuel : Nat)
    (dirs : List String)
    (hkeys : ∀ k ∈ dirs, k.isEmpty = false)
    (hN : 10000 < dirs.length) (hfuel : 10000 < fuel) :
    listDirectories send config b p1 fuel = listDirectories send config b p2 fuel ∧
    (∀ r ∈ (listDirectories send config b p1 fuel).2,
      r.reqPrefix = config.imagesPrefix ∧ r.bucket = config.imagesBucket) ∧
    ((listDirectories (idealDirStore dirs) config b p1 fuel).1).length = 10000 := by
  refine ⟨rfl, ?_, ?_⟩
  · intro r hr
    have h := listDirectoriesGo_reqs send config fuel none [] [] (by simp) r hr
    exact ⟨h.2.2.1, h.1⟩
  · exact listDirectoriesGo_ideal dirs config hkeys hN fuel none [] []
      (by simp) (by simp) (by omega)

/-- Witness for C5 at a concrete input: a store with 10001 common prefixes;
the two calls with different prefix arguments agree and 10000 entries are
collected. -/
theorem listDirectories_config_coupling_witness :
    (∀ k ∈ List.replicate 10001 "d/", k.isEmpty = false) ∧
    10000 < (List.replicate 10001 "d/").length ∧ 10000 < 10001 ∧
    (listDirectories (idealDirStore (List.replicate 10001 "d/")) ⟨"bkt", "images/"⟩ "bb" "pp1" 10001 =
       listDirectories (idealDirStore (List.replicate 10001 "d/")) ⟨"bkt", "images/"⟩ "bb" "pp2" 10001 ∧
     (∀ r ∈ (listDirectories (idealDirStore (List.replicate 10001 "d/")) ⟨"bkt", "images/"⟩ "bb" "pp1" 10001).2,
       r.reqPrefix = "images/" ∧ r.bucket = "bkt") ∧
     ((listDirectories (idealDirStore (List.replicate 10001 "d/")) ⟨"bkt", "images/"⟩ "bb" "pp1" 10001).1).length = 10000) :=
  ⟨by intro k hk; rw [List.eq_of_mem_replicate hk]; rfl,
   by rw [List.length_replicate]; norm_num,
   by norm_num,
   listDirectories_config_coupling ⟨"bkt", "images/"⟩ "bb" "pp1" "pp2"
     (idealDirStore (List.replicate 10001 "d/")) 10001 (List.replicate 10001 "d/")
     (by intro k hk; rw [List.eq_of_mem_replicate hk]; rfl)
     (by rw [List.length_replicate]; norm_num)
     (by norm_num)⟩

/-- C10: `listKeys` and `listDirectories` ignore their bucket parameter
entirely: with the same cached configuration and the same store, two calls
differing only in the bucket argument produce identical request logs and
identical results, and every page request's `Bucket` is the cached
configuration's `imagesBucket`. -/
theorem list_ignores_bucket (send : ListObjectsV2Request → ListObjectsV2Response)
    (config : Config) (b1 b2 p : String) (maxKeys fuel : Nat) :
    listKeys send config b1 p maxKeys fuel = listKeys send config b2 p maxKeys fuel ∧
    listDirectories send config b1 p fuel = listDirectories send config b2 p fuel ∧
    (∀ r ∈ (listKeys send config b1 p maxKeys fuel).2, r.bucket = config.imagesBucket) ∧
    (∀ r ∈ (listDirectories send config b1 p fuel).2, r.bucket = config.imagesBucket) := by
  refine ⟨rfl, rfl, ?_, ?_⟩
  · intro r hr
    exact (listKeysGo_reqs send config p maxKeys fuel none [] [] (by simp) r hr).1
  · intro r hr
    exact (listDirectoriesGo_reqs send config fuel none [] [] (by simp) r hr).1

/-- C3: on a directory tree in which every regular file's modification
time is older than the expiry cutoff (and which consists of files and
directories only), the sweep deletes every file and every now-empty
subdirectory, post-order, and reports the root fully emptied: it returns
`([], true)`. -/
theorem cleanCache_allStale (t : Nat) (es : List (String × FsEntry))
    (h : allStale t es = true) : _cleanCache t es = ([], true) := by
  induction es using _cleanCache.induct t with
  | case1 => simp [_cleanCache]
  | case2 n m d rest hm ih =>
    simp only [allStale, Bool.and_eq_true, decide_eq_true_eq] at h
    simp [_cleanCache, hm, ih h.2]
  | case3 n m d rest hm ih =>
    simp only [allStale, Bool.and_eq_true, decide_eq_true_eq] at h
    exact absurd h.1 hm
  | case4 n sub rest subR hcond ihsub ihrest =>
    simp only [allStale, Bool.and_eq_true] at h
    simp [_cleanCache, ihsub h.1, ihrest h.2]
  | case5 n sub rest subR hcond ihsub ihrest =>
    simp only [allStale, Bool.and_eq_true] at h
    exact absurd (by show (_cleanCache t sub).2 = true; rw [ihsub h.1]) hcond
  | case6 n rest ih =>
    simp [allStale] at h

/-- Witness for C3 at a concrete input: a root holding one stale file and
one subdirectory with a stale file sweeps to `([], true)`. -/
theorem cleanCache_allStale_witness :
    allStale 100 [("a", FsEntry.dir [("f.webp", FsEntry.file 5 [1, 2])]),
      ("g.webp", FsEntry.file 10 [3])] = true ∧
    _cleanCache 100 [("a", FsEntry.dir [("f.webp", FsEntry.file 5 [1, 2])]),
      ("g.webp", FsEntry.file 10 [3])] = ([], true) :=
  ⟨by simp [allStale], cleanCache_allStale 100 _ (by simp [allStale])⟩

theorem cleanCache_keeps_fresh_file (t : Nat) (n : String) (m : Nat) (d : List Nat) :
    ∀ es : List (String × FsEntry), (n, FsEntry.file m d) ∈ es → t ≤ m →
      (n, FsEntry.file m d) ∈ (_cleanCache t es).1 ∧ (_cleanCache t es).2 = false := by
  intro es
  induction es using _cleanCache.induct t with
  | case1 => intro hm _; simp at hm
  | case2 n2 m2 d2 rest hlt ih =>
    intro hm hf
    rcases List.mem_cons.mp hm with heq | hrest
    · exfalso
      have h2 := Prod.ext_iff.mp heq
      injection h2.2 with hm2 hd2
      omega
    · have := ih hrest hf
      simp [_cleanCache, hlt, this.1, this.2]
  | case3 n2 m2 d2 rest hlt ih =>
    intro hm hf
    rcases List.mem_cons.mp hm with heq | hrest
    · simp [_cleanCache, hlt, heq]
    · have := ih hrest hf
      simp [_cleanCache, hlt, this.1]
  | case4 n2 sub rest subR hcond ihsub ihrest =>
    intro hm hf
    rcases List.mem_cons.mp hm with heq | hrest
    · exact absurd (Prod.ext_iff.mp heq).2 (by simp)
    · have := ihrest hrest hf
      have hc : (_cleanCache t sub).2 = true := hcond
      simp [_cleanCache, hc, this.1, this.2]
  | case5 n2 sub rest subR hcond ihsub ihrest =>
    intro hm hf
    rcases List.mem_cons.mp hm with heq | hrest
    · exact absurd (Prod.ext_iff.mp heq).2 (by simp)
    · have := ihrest hrest hf
      have hc : ¬ (_cleanCache t sub).2 = true := hcond
      simp [_cleanCache, hc, this.1]
  | case6 n2 rest ih =>
    intro hm hf
    rcases List.mem_cons.mp hm with heq | hrest
    · exact absurd (Prod.ext_iff.mp heq).2 (by simp)
    · have := ih hrest hf
      simp [_cleanCache, this.1]

theorem cleanCache_keeps_nonempty_dir (t : Nat) (n : String) (sub : List (String × FsEntry)) :
    ∀ es : List (String × FsEntry), (n, FsEntry.dir sub) ∈ es →
      (_cleanCache t sub).2 = false →
      (n, FsEntry.dir (_cleanCache t sub).1) ∈ (_cleanCache t es).1 ∧
      (_cleanCache t es).2 = false := by
  intro es
  induction es using _cleanCache.induct t with
  | case1 => intro hm _; simp at hm
  | case2 n2 m2 d2 rest hlt ih =>
    intro hm hs
    rcases List.mem_cons.mp hm with heq | hrest
    · exact absurd (Prod.ext_iff.mp heq).2 (by simp)
    · have := ih hrest hs
      simp [_cleanCache, hlt, this.1, this.2]
  | case3 n2 m2 d2 rest hlt ih =>
    intro hm hs
    rcases List.mem_cons.mp hm with heq | hrest
    · exact absurd (Prod.ext_iff.mp heq).2 (by simp)
    · have := ih hrest hs
      simp [_cleanCache, hlt, this.1]
  | case4 n2 sub2 rest subR hcond ihsub ihrest =>
    intro hm hs
    rcases List.mem_cons.mp hm with heq | hrest
    · exfalso
      have h2 := Prod.ext_iff.mp heq
      injection h2.2 with hsub2
      have hc : (_cleanCache t sub2).2 = true := hcond
      rw [← hsub2] at hc
      exact absurd hc (by simp [hs])
    · have := ihrest hrest hs
      have hc : (_cleanCache t sub2).2 = true := hcond
      simp [_cleanCache, hc, this.1, this.2]
  | case5 n2 sub2 rest subR hcond ihsub ihrest =>
    intro hm hs
    rcases List.mem_cons.mp hm with heq | hrest
    · have h2 := Prod.ext_iff.mp heq
      injection h2.2 with hsub2
      have hc : ¬ (_cleanCache t sub2).2 = true := hcond
      subst hsub2
      have hn : n = n2 := h2.1
      simp only [_cleanCache, hs, Bool.false_eq_true, if_false, List.mem_cons]
      exact ⟨Or.inl (by rw [hn]), trivial⟩
    · have := ihrest hrest hs
      have hc : ¬ (_cleanCache t sub2).2 = true := hcond
      simp [_cleanCache, hc, this.1]
  | case6 n2 rest ih =>
    intro hm hs
    rcases List.mem_cons.mp hm with heq | hrest
    · exact absurd (Prod.ext_iff.mp heq).2 (by simp)
    · have := ih hrest hs
      simp [_cleanCache, this.1]

/-- C4: when a path through the tree leads to a fresh file (modification
time within the expiry cutoff), the sweep keeps that file and every
directory on the chain from the root down to it — the same path still
resolves after the sweep — and it returns `false` for the swept root.
Since the theorem quantifies over every listing `es`, it applies equally to
each directory on the chain (each is swept by the recursive call with a
`FreshPath` of its own), so every recursive call on the chain returns
`false`. -/
theorem cleanCache_fresh_path (t : Nat) (es : List (String × FsEntry)) (p : List String)
    (h : FreshPath t es p) :
    FreshPath t (_cleanCache t es).1 p ∧ (_cleanCache t es).2 = false := by
  induction h with
  | here hmem hfresh =>
    have := cleanCache_keeps_fresh_file t _ _ _ _ hmem hfresh
    exact ⟨FreshPath.here this.1 hfresh, this.2⟩
  | there hmem hsub ih =>
    have := cleanCache_keeps_nonempty_dir t _ _ _ hmem ih.2
    exact ⟨FreshPath.there this.1 ih.1, this.2⟩

/-- Witness for C4 at a concrete input: a fresh file at
`a/fresh.webp` next to a stale file; the path survives the sweep and the
root reports non-empty. -/
theorem cleanCache_fresh_path_witness :
    FreshPath 100 [("a", FsEntry.dir [("fresh.webp", FsEntry.file 200 [1])]),
      ("g.webp", FsEntry.file 5 [2])] ["a", "fresh.webp"] ∧
    FreshPath 100 (_cleanCache 100 [("a", FsEntry.dir [("fresh.webp", FsEntry.file 200 [1])]),
      ("g.webp", FsEntry.file 5 [2])]).1 ["a", "fresh.webp"] ∧
    (_cleanCache 100 [("a", FsEntry.dir [("fresh.webp", FsEntry.file 200 [1])]),
      ("g.webp", FsEntry.file 5 [2])]).2 = false := by
  have hpath : FreshPath 100 [("a", FsEntry.dir [("fresh.webp", FsEntry.file 200 [1])]),
      ("g.webp", FsEntry.file 5 [2])] ["a", "fresh.webp"] :=
    FreshPath.there (List.mem_cons_self _ _)
      (FreshPath.here (List.mem_cons_self _ _) (by norm_num))
  exact ⟨hpath, (cleanCache_fresh_path 100 _ _ hpath).1, (cleanCache_fresh_path 100 _ _ hpath).2⟩

theorem lookupEntry_setEntry_self (es : List (String × FsEntry)) (n : String) (v : FsEntry) :
    lookupEntry (setEntry es n v) n = some v := by
  induction es with
  | nil => simp [setEntry, lookupEntry]
  | cons e rest ih =>
    by_cases he : e.1 == n
    · simp [setEntry, he, lookupEntry]
    · simp [setEntry, he, lookupEntry, ih]

theorem lookupEntry_setEntry_ne (es : List (String × FsEntry)) (n f : String) (v : FsEntry)
    (hne : f ≠ n) :
    lookupEntry (setEntry es n v) f = lookupEntry es f := by
  induction es with
  | nil =>
    simp only [setEntry, lookupEntry]
    rw [if_neg (by simpa using fun h => hne h.symm)]
  | cons e rest ih =>
    by_cases he : e.1 == n
    · have he2 : e.1 = n := by simpa using he
      simp only [setEntry, he, if_true, lookupEntry]
      rw [if_neg (by simpa using fun h => hne h.symm),
        if_neg (by simp [he2]; exact fun h => hne h.symm)]
    · simp [setEntry, he, lookupEntry, ih]

theorem writeCacheImage_sweeps (now t : Nat) (folder : String) (image : ImageInfo)
    (content : List Nat) (root : List (String × FsEntry)) :
    writeCacheImage now t folder image content false root =
      (writeCacheImage now t folder image content true root).map
        (fun r => (_cleanCache t r).1) := by
  unfold writeCacheImage
  cases hm : lookupEntry root folder with
  | none => simp [Except.map]
  | some e =>
    cases e with
    | dir sub =>
      cases hs : lookupEntry sub (image.name ++ ".webp") with
      | none => simp [hs, Except.map]
      | some e2 => cases e2 <;> simp [hs, Except.map]
    | file m d => simp [Except.map]
    | other => simp [Except.map]

theorem getCachedImage_miss_frame (now t : Nat)
    (fetchImage : String → ImageInfo → Nat × List Nat)
    (folder : String) (image : ImageInfo) (root : List (String × FsEntry))
    (hmiss : lookup2 root folder (image.name ++ ".webp") = none)
    (hfolder : lookupEntry root folder = none ∨
      ∃ sub, lookupEntry root folder = some (FsEntry.dir sub))
    (hstatus : (fetchImage folder image).1 < 400) :
    ∃ root2,
      getCachedImage now t fetchImage folder image root =
        Except.ok ((folder, image.name ++ ".webp"), root2) ∧
      lookup2 root2 folder (image.name ++ ".webp") =
        some (FsEntry.file now (fetchImage folder image).2) ∧
      ∀ f n, ¬(f = folder ∧ n = image.name ++ ".webp") →
        lookup2 root2 f n = lookup2 root f n := by
  rcases hfolder with hnone | ⟨sub, hsub⟩
  · refine ⟨setEntry root folder (FsEntry.dir (setEntry [] (image.name ++ ".webp")
      (FsEntry.file now (fetchImage folder image).2))), ?_, ?_, ?_⟩
    · simp only [getCachedImage, hmiss, writeCacheImage, hnone]
      rw [if_neg (by omega)]
      simp
    · simp [lookup2, lookupEntry_setEntry_self, setEntry, lookupEntry]
    · intro f n hne
      by_cases hf : f = folder
      · rw [hf]
        have hn : n ≠ image.name ++ ".webp" := fun h => hne ⟨hf, h⟩
        simp [lookup2, lookupEntry_setEntry_self, hnone, setEntry, lookupEntry,
          beq_iff_eq, Ne.symm hn]
      · simp [lookup2, lookupEntry_setEntry_ne root folder f _ hf]
  · refine ⟨setEntry root folder (FsEntry.dir (setEntry sub (image.name ++ ".webp")
      (FsEntry.file now (fetchImage folder image).2))), ?_, ?_, ?_⟩
    · have hsubmiss : lookupEntry sub (image.name ++ ".webp") = none := by
        simpa [lookup2, hsub] using hmiss
      simp only [getCachedImage, hmiss, writeCacheImage, hsub, hsubmiss]
      rw [if_neg (by omega)]
      simp
    · simp [lookup2, lookupEntry_setEntry_self]
    · intro f n hne
      by_cases hf : f = folder
      · rw [hf]
        have hn : n ≠ image.name ++ ".webp" := fun h => hne ⟨hf, h⟩
        simp [lookup2, lookupEntry_setEntry_self, hsub,
          lookupEntry_setEntry_ne sub (image.name ++ ".webp") n _ hn]
      · simp [lookup2, lookupEntry_setEntry_ne root folder f _ hf]

/-- C7: the write-through path (`writeCacheImage` as invoked after a
successful upload, i.e. with `skipClean` defaulted to `false`) is exactly
the skip-clean write followed by an eviction sweep of the whole cache root;
whereas `getCachedImage` on a cache miss (with a successful fetch) writes
only the fetched entry, with no sweep: the resulting cache maps the
requested `(folder, image)` pair to the fetched bytes and agrees with the
old cache on every other `(folder, file)` pair — stale entries
included. -/
theorem cache_sweep_policy (now t : Nat)
    (fetchImage : String → ImageInfo → Nat × List Nat)
    (folder : String) (image : ImageInfo) (root : List (String × FsEntry))
    (hmiss : lookup2 root folder (image.name ++ ".webp") = none)
    (hfolder : lookupEntry root folder = none ∨
      ∃ sub, lookupEntry root folder = some (FsEntry.dir sub))
    (hstatus : (fetchImage folder image).1 < 400) :
    (∀ content, writeCacheImage now t folder image content false root =
      (writeCacheImage now t folder image content true root).map
        (fun r => (_cleanCache t r).1)) ∧
    ∃ root2,
      getCachedImage now t fetchImage folder image root =
        Except.ok ((folder, image.name ++ ".webp"), root2) ∧
      lookup2 root2 folder (image.name ++ ".webp") =
        some (FsEntry.file now (fetchImage folder image).2) ∧
      ∀ f n, ¬(f = folder ∧ n = image.name ++ ".webp") →
        lookup2 root2 f n = lookup2 root f n :=
  ⟨fun content => writeCacheImage_sweeps now t folder image content root,
   getCachedImage_miss_frame now t fetchImage folder image root hmiss hfolder hstatus⟩

/-- Witness for C7 at a concrete input: a cache holding an unrelated stale
file; a miss-driven fetch of `trip/beach.webp` succeeds, adds only that
entry, and leaves the stale file exactly where it was. -/
theorem cache_sweep_policy_witness :
    lookup2 [("old", FsEntry.dir [("stale.webp", FsEntry.file 5 [9])])] "trip"
      ((⟨"beach.2x2.webp", "beach"⟩ : ImageInfo).name ++ ".webp") = none ∧
    (lookupEntry [("old", FsEntry.dir [("stale.webp", FsEntry.file 5 [9])])] "trip" = none ∨
      ∃ sub, lookupEntry [("old", FsEntry.dir [("stale.webp", FsEntry.file 5 [9])])] "trip" =
        some (FsEntry.dir sub)) ∧
    (((fun (_ : String) (_ : ImageInfo) => ((200 : Nat), [1, 2])) "trip"
      (⟨"beach.2x2.webp", "beach"⟩ : ImageInfo)).1 < 400) ∧
    ((∀ content, writeCacheImage 150 100 "trip" ⟨"beach.2x2.webp", "beach"⟩ content false
        [("old", FsEntry.dir [("stale.webp", FsEntry.file 5 [9])])] =
      (writeCacheImage 150 100 "trip" ⟨"beach.2x2.webp", "beach"⟩ content true
        [("old", FsEntry.dir [("stale.webp", FsEntry.file 5 [9])])]).map
        (fun r => (_cleanCache 100 r).1)) ∧
    ∃ root2,
      getCachedImage 150 100 (fun (_ : String) (_ : ImageInfo) => ((200 : Nat), [1, 2]))
        "trip" ⟨"beach.2x2.webp", "beach"⟩
        [("old", FsEntry.dir [("stale.webp", FsEntry.file 5 [9])])] =
        Except.ok (("trip", (⟨"beach.2x2.webp", "beach"⟩ : ImageInfo).name ++ ".webp"), root2) ∧
      lookup2 root2 "trip" ((⟨"beach.2x2.webp", "beach"⟩ : ImageInfo).name ++ ".webp") =
        some (FsEntry.file 150 (((fun (_ : String) (_ : ImageInfo) => ((200 : Nat), [1, 2])) "trip"
          (⟨"beach.2x2.webp", "beach"⟩ : ImageInfo)).2)) ∧
      ∀ f n, ¬(f = "trip" ∧ n = (⟨"beach.2x2.webp", "beach"⟩ : ImageInfo).name ++ ".webp") →
        lookup2 root2 f n =
          lookup2 [("old", FsEntry.dir [("stale.webp", FsEntry.file 5 [9])])] f n) :=
  ⟨rfl, Or.inl rfl, by norm_num,
   cache_sweep_policy 150 100 (fun _ _ => (200, [1, 2])) "trip" ⟨"beach.2x2.webp", "beach"⟩
     [("old", FsEntry.dir [("stale.webp", FsEntry.file 5 [9])])]
     rfl (Or.inl rfl) (by norm_num)⟩

theorem extMatch_dot (l : List Char) (hl : extMatch l = true) : '.' ∈ l := by
  unfold extMatch at hl
  split at hl
  · exact List.mem_cons_self _ _
  · exact absurd hl (by simp)

theorem sizeTagMatch_dot (l : List Char) (hl : sizeTagMatch l = true) : '.' ∈ l := by
  unfold sizeTagMatch at hl
  split at hl
  · exact List.mem_cons_self _ _
  · exact absurd hl (by simp)

theorem tailMatch_dot (l : List Char) (hl : tailMatch l = true) : '.' ∈ l := by
  unfold tailMatch at hl
  rcases Bool.or_eq_true_iff.mp hl with he | ha
  · exact extMatch_dot l he
  · rcases List.any_eq_true.mp ha with ⟨j, _, hj⟩
    have hs := (Bool.and_eq_true_iff.mp hj).1
    exact List.mem_of_mem_take (sizeTagMatch_dot _ hs)

/-- C8 counterexample: the claim says a returned result always has a
non-empty `name`, and that parsing fails whenever the filename has no
extension-delimited base.  But `IMAGE_FILENAME_PATTERN` matches `".webp"`
with the lazy group empty: `parseImageInfo(".webp")` returns
`{filename: ".webp", name: ""}` — a result with an empty name for a
filename with no base. -/
theorem parseImageInfo_empty_name_counterexample :
    parseImageInfo ".webp" = some ⟨".webp", ""⟩ ∧
    (⟨".webp", ""⟩ : ImageInfo).name = "" := by
  exact ⟨by decide, rfl⟩

/-- C8 (amended): when the basename contains no dot at all, parsing fails
(returns `none`); when parsing succeeds, the result's `filename` is the
whole basename, and its `name` can be empty — exactly when the whole
basename already matches the extension tail pattern, as `".webp"` does. -/
theorem parseImageInfo_spec (s : String) :
    ((basenameChars s.data).all (fun c => c != '.') = true → parseImageInfo s = none) ∧
    (∀ info, parseImageInfo s = some info →
      info.filename = String.mk (basenameChars s.data) ∧
      (info.name = "" → tailMatch (basenameChars s.data) = true)) := by
  constructor
  · intro hall
    have hnone : (List.range ((basenameChars s.data).length + 1)).find?
        (fun i => tailMatch ((basenameChars s.data).drop i)) = none := by
      rw [List.find?_eq_none]
      intro i _
      simp only [Bool.not_eq_true]
      by_contra hc
      rw [Bool.not_eq_false] at hc
      have hdot : ('.' : Char) ∈ basenameChars s.data :=
        List.mem_of_mem_drop (tailMatch_dot _ hc)
      have h2 := List.all_eq_true.mp hall _ hdot
      simp at h2
    simp [parseImageInfo, hnone]
  · intro info hinfo
    simp only [parseImageInfo] at hinfo
    cases hfind : (List.range ((basenameChars s.data).length + 1)).find?
        (fun i => tailMatch ((basenameChars s.data).drop i)) with
    | none =>
      rw [hfind] at hinfo
      exact absurd hinfo (by simp)
    | some i =>
      rw [hfind] at hinfo
      have hp : tailMatch ((basenameChars s.data).drop i) = true := by
        simpa using List.find?_some hfind
      have hinfo2 : info = ⟨String.mk (basenameChars s.data),
          String.mk ((basenameChars s.data).take i)⟩ := by
        simpa using hinfo.symm
      subst hinfo2
      refine ⟨rfl, ?_⟩
      intro hname
      have htake : (basenameChars s.data).take i = [] := by
        simpa using congrArg String.data hname
      rcases List.take_eq_nil_iff.mp htake with hi0 | hbnil
      · rw [hi0] at hp
        simpa using hp
      · rw [hbnil] at hp ⊢
        simpa using hp

/-- Witness for the amended C8 at concrete inputs: `"noextension"` has no
dot and fails to parse; `"a.webp"` parses to filename `"a.webp"`, name
`"a"`. -/
theorem parseImageInfo_spec_witness :
    ((basenameChars "noextension".data).all (fun c => c != '.') = true ∧
     parseImageInfo "noextension" = none) ∧
    (parseImageInfo "a.webp" = some ⟨"a.webp", "a"⟩ ∧
     (⟨"a.webp", "a"⟩ : ImageInfo).filename = String.mk (basenameChars "a.webp".data) ∧
     ((⟨"a.webp", "a"⟩ : ImageInfo).name = "" → tailMatch (basenameChars "a.webp".data) = true)) :=
  ⟨⟨by decide, (parseImageInfo_spec "noextension").1 (by decide)⟩,
   ⟨by decide, (parseImageInfo_spec "a.webp").2 ⟨"a.webp", "a"⟩ (by decide)⟩⟩

/-- C9: `uploadImages` processes the URIs strictly in input order,
sequentially, one outcome per input: the result list has the same length as
the input list, and the `k`-th outcome is exactly the outcome of the
(abstracted) `uploadImage` on the `k`-th input URI — a success with the
resulting `ImageInfo` or an error with the message — independent of
whether any other item failed. -/
theorem uploadImages_ordered (uploadImage : String → Except String ImageInfo)
    (imageUris : List String) :
    (uploadImages uploadImage imageUris).length = imageUris.length ∧
    ∀ k : Nat, (uploadImages uploadImage imageUris)[k]? =
      (imageUris[k]?).map (fun uri =>
        match uploadImage uri with
        | Except.ok img => ImageUploadResult.success uri img
        | Except.error e => ImageUploadResult.error uri e) := by
  induction imageUris with
  | nil => exact ⟨rfl, fun k => by simp [uploadImages]⟩
  | cons u rest ih =>
    refine ⟨by simp [uploadImages, ih.1], ?_⟩
    intro k
    cases k with
    | zero => simp [uploadImages]
    | succ k2 => simpa [uploadImages] using ih.2 k2
